import Mathlib

/-!
Verification of the kubelet-exporter summary-to-metrics pipeline
(`pkg/collectors/volume_stats.go`) against its specification.

The Go collector fetches the kubelet stats summary, JSON-decodes it into the
`v1alpha1.Summary` data model, walks the pod/volume structure, deduplicates
persistent-volume-claim references by the string key `namespace + "/" + name`,
and emits six gauge records per claim.  The shallow embedding below translates
the data model and the `Collect` walk; machine `uint64` values are modelled as
`Nat`, `float64` conversion as exact nearest-even rounding on `Nat`, pointer
fields as `Option`, and the nil-pointer dereference that Go performs on an
absent stat field as an explicit panic outcome carrying the records already
streamed to the output channel.
-/

namespace KubeletExporter

/-- Embeds the kubelet `FsStats` struct: six optional `uint64` fields, in
source declaration order.  A `none` models a nil pointer (absent JSON field). -/
structure FsStats where
  availableBytes : Option Nat
  capacityBytes : Option Nat
  usedBytes : Option Nat
  inodesFree : Option Nat
  inodes : Option Nat
  inodesUsed : Option Nat
deriving DecidableEq

/-- Embeds `PVCReference {Name, Namespace string}`.  The Go field `Namespace`
is rendered `ns` because `namespace` is a Lean keyword. -/
structure PVCReference where
  name : String
  ns : String
deriving DecidableEq

/-- Embeds `VolumeStats`: embedded `FsStats`, volume name, optional pointer to
a `PVCReference`. -/
structure VolumeStats where
  fsStats : FsStats
  name : String
  pvcRef : Option PVCReference
deriving DecidableEq

/-- Embeds `PodReference {Name, Namespace, UID string}`. -/
structure PodReference where
  name : String
  ns : String
  uid : String
deriving DecidableEq

/-- Embeds `PodStats`: pod reference plus the `volume` slice; `none` models a
nil slice (the `podStats.VolumeStats == nil` check in `Collect`). -/
structure PodStats where
  podRef : PodReference
  volumeStats : Option (List VolumeStats)
deriving DecidableEq

/-- Embeds the `pods` field of `v1alpha1.Summary`; `none` models a nil slice
(the `statsSummary.Pods != nil` check in `Collect`). -/
structure Summary where
  pods : Option (List PodStats)
deriving DecidableEq

/-- Embeds `prometheus.Desc` as built by `prometheus.NewDesc(name, help,
variableLabels, nil)`. -/
structure MetricDesc where
  fqName : String
  help : String
  variableLabels : List String
deriving DecidableEq

def volumeStatsCapacityBytesKey : String := "kubelet_volume_stats_capacity_bytes"

def volumeStatsAvailableBytesKey : String := "kubelet_volume_stats_available_bytes"

def volumeStatsUsedBytesKey : String := "kubelet_volume_stats_used_bytes"

def volumeStatsInodesKey : String := "kubelet_volume_stats_inodes"

def volumeStatsInodesFreeKey : String := "kubelet_volume_stats_inodes_free"

def volumeStatsInodesUsedKey : String := "kubelet_volume_stats_inodes_used"

def volumeStatsCapacityBytes : MetricDesc :=
  { fqName := volumeStatsCapacityBytesKey
    help := "Capacity in bytes of the volume"
    variableLabels := ["namespace", "persistentvolumeclaim"] }

def volumeStatsAvailableBytes : MetricDesc :=
  { fqName := volumeStatsAvailableBytesKey
    help := "Number of available bytes in the volume"
    variableLabels := ["namespace", "persistentvolumeclaim"] }

def volumeStatsUsedBytes : MetricDesc :=
  { fqName := volumeStatsUsedBytesKey
    help := "Number of used bytes in the volume"
    variableLabels := ["namespace", "persistentvolumeclaim"] }

def volumeStatsInodes : MetricDesc :=
  { fqName := volumeStatsInodesKey
    help := "Maximum number of inodes in the volume"
    variableLabels := ["namespace", "persistentvolumeclaim"] }

def volumeStatsInodesFree : MetricDesc :=
  { fqName := volumeStatsInodesFreeKey
    help := "Number of free inodes in the volume"
    variableLabels := ["namespace", "persistentvolumeclaim"] }

def volumeStatsInodesUsed : MetricDesc :=
  { fqName := volumeStatsInodesUsedKey
    help := "Number of used inodes in the volume"
    variableLabels := ["namespace", "persistentvolumeclaim"] }

/-- Embeds the `Describe` method: the six descriptors sent to the channel, in
source order. -/
def Describe : List MetricDesc :=
  [volumeStatsCapacityBytes, volumeStatsAvailableBytes, volumeStatsUsedBytes,
   volumeStatsInodes, volumeStatsInodesFree, volumeStatsInodesUsed]

/-- Bounded base-2 floor logarithm: `log2floorAux fuel n` equals the floor of
`log2 n` for every `n < 2 ^ fuel`.  Structural recursion on the fuel keeps the
definition kernel-reducible; fuel 128 covers every `uint64` input. -/
def log2floorAux : Nat → Nat → Nat
  | 0, _ => 0
  | fuel + 1, n => if n ≤ 1 then 0 else log2floorAux fuel (n / 2) + 1

def log2floor (n : Nat) : Nat := log2floorAux 128 n

/-- Exact integer value of the IEEE-754 binary64 conversion of a non-negative
integer (Go `float64(x)` on a `uint64`): values up to `2 ^ 53` are exact, and
larger values round to nearest with ties to an even 53-bit mantissa. -/
def roundF64 (n : Nat) : Nat :=
  if n < 2 ^ 53 then n
  else
    let shift := log2floor n - 52
    let q := n / 2 ^ shift
    let r := n % 2 ^ shift
    let half := 2 ^ (shift - 1)
    let q2 := if half < r ∨ (r = half ∧ q % 2 = 1) then q + 1 else q
    q2 * 2 ^ shift

/-- Embeds one `prometheus.MustNewConstMetric(desc, GaugeValue, v, lv...)`
value streamed to the channel: the descriptor, the gauge value (an exact
non-negative integer, since every emitted value is `float64` of a `uint64`),
and the ordered label values. -/
structure GaugeRecord where
  desc : MetricDesc
  value : Nat
  labelValues : List String
deriving DecidableEq

/-- Embeds the `addGauge` closure of `Collect`: label values are
`[pvcRef.Namespace, pvcRef.Name]` and the value is the `float64` conversion of
the dereferenced `uint64` stat. -/
def addGauge (desc : MetricDesc) (pvcRef : PVCReference) (v : Nat) : GaugeRecord :=
  { desc := desc, value := roundF64 v, labelValues := [pvcRef.ns, pvcRef.name] }

/-- Embeds the dedup key `pvcRef.Namespace + "/" + pvcRef.Name`. -/
def pvcUniqStr (pvcRef : PVCReference) : String := pvcRef.ns ++ "/" ++ pvcRef.name

/-- One `addGauge(desc, pvcRef, float64(*stat))` call.  Dereferencing an
absent stat is a nil-pointer panic in Go; it is modelled as `Except.error`
carrying the records already streamed to the channel before the panic. -/
def emitOne (out : List GaugeRecord) (desc : MetricDesc) (pvcRef : PVCReference)
    (v : Option Nat) : Except (List GaugeRecord) (List GaugeRecord) :=
  match v with
  | none => .error out
  | some n => .ok (out ++ [addGauge desc pvcRef n])

/-- State of the `Collect` walk: the `allPVCs` dedup set (as the list of keys
inserted so far; `sets.String.Has` is membership) and the records streamed to
the channel so far. -/
structure WalkState where
  allPVCs : List String
  out : List GaugeRecord
deriving DecidableEq

/-- Embeds one iteration of the inner `for _, volumeStat := range
podStats.VolumeStats` loop of `Collect`: skip on nil `PVCRef`, skip on an
already-collected dedup key, otherwise stream the six gauges in source order
and insert the key into `allPVCs`. -/
def stepVolume (st : WalkState) (volumeStat : VolumeStats) :
    Except (List GaugeRecord) WalkState :=
  match volumeStat.pvcRef with
  | none => .ok st
  | some pvcRef =>
    if st.allPVCs.contains (pvcUniqStr pvcRef) then .ok st
    else do
      let o1 ← emitOne st.out volumeStatsCapacityBytes pvcRef volumeStat.fsStats.capacityBytes
      let o2 ← emitOne o1 volumeStatsAvailableBytes pvcRef volumeStat.fsStats.availableBytes
      let o3 ← emitOne o2 volumeStatsUsedBytes pvcRef volumeStat.fsStats.usedBytes
      let o4 ← emitOne o3 volumeStatsInodes pvcRef volumeStat.fsStats.inodes
      let o5 ← emitOne o4 volumeStatsInodesFree pvcRef volumeStat.fsStats.inodesFree
      let o6 ← emitOne o5 volumeStatsInodesUsed pvcRef volumeStat.fsStats.inodesUsed
      pure { allPVCs := st.allPVCs ++ [pvcUniqStr pvcRef], out := o6 }

/-- Embeds one iteration of the outer `for _, podStats := range
statsSummary.Pods` loop: a nil `VolumeStats` slice is skipped, otherwise the
inner loop runs over the volumes in order. -/
def stepPod (st : WalkState) (podStats : PodStats) :
    Except (List GaugeRecord) WalkState :=
  match podStats.volumeStats with
  | none => .ok st
  | some vols => vols.foldlM stepVolume st

/-- Outcome of one `Collect` cycle: fetch failure (logged, zero records),
parse failure (logged, zero records), a nil-pointer panic during the walk
(carrying the records streamed before the panic), or normal completion with
the streamed records. -/
inductive CollectOutcome
  | fetchFailed (cause : String)
  | parseFailed (cause : String)
  | panicked (emitted : List GaugeRecord)
  | records (emitted : List GaugeRecord)
deriving DecidableEq

/-- Embeds the walk of `Collect` after a successful parse: the `if
statsSummary.Pods != nil` guard and the two nested loops starting from an
empty `allPVCs` set and an empty channel. -/
def translateSummary (statsSummary : Summary) : CollectOutcome :=
  match statsSummary.pods with
  | none => .records []
  | some pods =>
    match pods.foldlM stepPod { allPVCs := [], out := [] } with
    | .ok st => .records st.out
    | .error out => .panicked out

/-- Result of `json.Unmarshal` on the body bytes.  The decoder itself is the
Go standard library, outside this repository, so it enters the embedding as
an abstract function from bytes to this result type. -/
inductive ParseResult
  | ok (s : Summary)
  | malformed (cause : String)

/-- The HTTP response as `Collect` consumes it: the bytes that
`ioutil.ReadAll` returned, and the read error it returned alongside them
(which line 90 of the source discards into `_`). -/
structure FetchResponse where
  body : List Nat
  readErr : Option String

/-- Result of `ctxhttp.Get`: a transport/timeout error, or a response. -/
inductive FetchResult
  | failure (cause : String)
  | success (resp : FetchResponse)

/-- Embeds the full `Collect` method, with `json.Unmarshal` abstracted as the
`unmarshal` argument: a fetch error logs and returns with zero records; the
body-read error is discarded (`rBody, _ := ioutil.ReadAll(resp.Body)`); an
unmarshal error logs and returns with zero records; otherwise the walk runs. -/
def Collect (unmarshal : List Nat → ParseResult) (r : FetchResult) : CollectOutcome :=
  match r with
  | .failure cause => .fetchFailed cause
  | .success resp =>
    match unmarshal resp.body with
    | .malformed cause => .parseFailed cause
    | .ok s => translateSummary s

/-- Records visible on the scrape channel for one cycle: none on fetch or
parse failure, the partial stream on a panic, the full stream on success. -/
def recordsOf : CollectOutcome → List GaugeRecord
  | .fetchFailed _ => []
  | .parseFailed _ => []
  | .panicked emitted => emitted
  | .records emitted => emitted

/-! ## Derived views of the walk, used to state the specified properties -/

/-- All six stat fields of this volume are present (no nil pointer); the
source dereferences all six unconditionally whenever a `pvcRef` exists. -/
def FsStats.allPresent (fs : FsStats) : Bool :=
  fs.capacityBytes.isSome && fs.availableBytes.isSome && fs.usedBytes.isSome &&
  fs.inodes.isSome && fs.inodesFree.isSome && fs.inodesUsed.isSome

/-- The claim-referencing entries of a list of volumes, in order: the pairs
(claim reference, filesystem stats) of the volumes that carry a `pvcRef`. -/
def volEntries (vols : List VolumeStats) : List (PVCReference × FsStats) :=
  vols.filterMap (fun v => v.pvcRef.map (fun r => (r, v.fsStats)))

/-- The claim-referencing entries contributed by one pod, in volume order. -/
def podEntries (podStats : PodStats) : List (PVCReference × FsStats) :=
  match podStats.volumeStats with
  | none => []
  | some vols => volEntries vols

/-- All claim-referencing entries of a summary, in document (pod/volume
walk) order. -/
def claimEntries (s : Summary) : List (PVCReference × FsStats) :=
  match s.pods with
  | none => []
  | some pods => pods.flatMap podEntries

/-- The six gauge records the source emits for one claim whose stats are all
present, in the fixed source order (capacity, available, used, inodes,
inodes free, inodes used).  The `getD 0` defaults are never reached in any
statement: this function is only applied to stats satisfying `allPresent`. -/
def sixOf (pvcRef : PVCReference) (fs : FsStats) : List GaugeRecord :=
  [addGauge volumeStatsCapacityBytes pvcRef (fs.capacityBytes.getD 0),
   addGauge volumeStatsAvailableBytes pvcRef (fs.availableBytes.getD 0),
   addGauge volumeStatsUsedBytes pvcRef (fs.usedBytes.getD 0),
   addGauge volumeStatsInodes pvcRef (fs.inodes.getD 0),
   addGauge volumeStatsInodesFree pvcRef (fs.inodesFree.getD 0),
   addGauge volumeStatsInodesUsed pvcRef (fs.inodesUsed.getD 0)]

/-- The dedup keys inserted into `allPVCs` after processing the given
entries, starting from the given set contents. -/
def seenAfter (seen : List String) : List (PVCReference × FsStats) → List String
  | [] => seen
  | (r, _) :: rest =>
    if seen.contains (pvcUniqStr r) then seenAfter seen rest
    else seenAfter (seen ++ [pvcUniqStr r]) rest

/-- The records the walk emits for the given entries starting from the given
dedup-set contents: the flat-loop view of the two nested loops of `Collect`,
still deduplicating by the concatenated key. -/
def dedupEmit (seen : List String) : List (PVCReference × FsStats) → List GaugeRecord
  | [] => []
  | (r, fs) :: rest =>
    if seen.contains (pvcUniqStr r) then dedupEmit seen rest
    else sixOf r fs ++ dedupEmit (seen ++ [pvcUniqStr r]) rest

/-- Modelled from the spec: first-encounter deduplication by claim identity
itself — an entry is dropped exactly when its `PVCReference` (both fields)
was seen before.  This is the behaviour §4.2 of the spec ascribes to the
walk, to be compared with the key-based `dedupEmit` of the source. -/
def firstOccurrences (seen : List PVCReference) :
    List (PVCReference × FsStats) → List (PVCReference × FsStats)
  | [] => []
  | (r, fs) :: rest =>
    if r ∈ seen then firstOccurrences seen rest
    else (r, fs) :: firstOccurrences (seen ++ [r]) rest

/-- Modelled from the spec: the output sequence as §4.2 describes it — one
six-record block per retained claim entry, blocks in entry order. -/
def blocks : List (PVCReference × FsStats) → List GaugeRecord
  | [] => []
  | (r, fs) :: rest => sixOf r fs ++ blocks rest

/-- The dedup key is injective on the given references: no two of them
collide on `namespace ++ "/" ++ name`.  Distinct identities always satisfy
this when neither field contains a slash. -/
def KeyInj (refs : List PVCReference) : Prop :=
  ∀ r₁ ∈ refs, ∀ r₂ ∈ refs, pvcUniqStr r₁ = pvcUniqStr r₂ → r₁ = r₂

instance (refs : List PVCReference) : Decidable (KeyInj refs) := by
  unfold KeyInj; infer_instance

/-- Records on the channel after a partial walk step: the partial stream on a
panic, the state stream on success. -/
def walkOut : Except (List GaugeRecord) WalkState → List GaugeRecord
  | .error o => o
  | .ok st => st.out

/-- One pod with its claimless volumes removed. -/
def stripPod (p : PodStats) : PodStats :=
  { podRef := p.podRef
    volumeStats := p.volumeStats.map (fun vols => vols.filter (fun v => v.pvcRef.isSome)) }

/-- The summary with every volume lacking a `pvcRef` removed. -/
def stripNoClaim (s : Summary) : Summary :=
  { pods := s.pods.map (List.map stripPod) }

/-! ## Concrete documents used as test inputs -/

def demoRef : PVCReference := { name := "pvc-a", ns := "default" }

/-- Stats with all six fields present. -/
def fsAll (cap av us ino infr iur : Nat) : FsStats :=
  { availableBytes := some av, capacityBytes := some cap, usedBytes := some us,
    inodesFree := some infr, inodes := some ino, inodesUsed := some iur }

def claimVol (r : PVCReference) (fs : FsStats) : VolumeStats :=
  { fsStats := fs, name := "volume", pvcRef := some r }

def onePodDoc (vols : List VolumeStats) : Summary :=
  { pods := some [{ podRef := { name := "pod", ns := "default", uid := "uid" },
                    volumeStats := some vols }] }

def twoVolDoc (r₁ : PVCReference) (fs₁ : FsStats) (r₂ : PVCReference) (fs₂ : FsStats) :
    Summary :=
  onePodDoc [claimVol r₁ fs₁, claimVol r₂ fs₂]

def oneClaimDoc (r : PVCReference) (cap av us ino infr iur : Nat) : Summary :=
  onePodDoc [claimVol r (fsAll cap av us ino infr iur)]

/-- Key collision pair: distinct identities with the same dedup key
`"a/b/c"`. -/
def refSlashA : PVCReference := { name := "b/c", ns := "a" }

def refSlashB : PVCReference := { name := "c", ns := "a/b" }

def c1Doc : Summary :=
  onePodDoc [claimVol refSlashA (fsAll 1 2 3 4 5 6),
    claimVol refSlashB (fsAll 7 8 9 10 11 12),
    claimVol refSlashB (fsAll 13 14 15 16 17 18)]

def c1WitnessRef : PVCReference := { name := "pvc-b", ns := "default" }

def c1WitnessDoc : Summary :=
  onePodDoc [claimVol demoRef (fsAll 1000 400 600 100 80 20),
    claimVol c1WitnessRef (fsAll 500 200 300 50 40 10),
    claimVol demoRef (fsAll 1 2 3 4 5 6)]

/-- Claim volume whose capacity stat is absent. -/
def c2Doc : Summary :=
  onePodDoc [{ fsStats := { availableBytes := some 400, capacityBytes := none,
                            usedBytes := some 600, inodesFree := some 80,
                            inodes := some 100, inodesUsed := some 20 },
               name := "volume", pvcRef := some demoRef }]

/-- Claim volume whose available stat is absent (capacity present). -/
def c2DocPartial : Summary :=
  onePodDoc [{ fsStats := { availableBytes := none, capacityBytes := some 1000,
                            usedBytes := some 600, inodesFree := some 80,
                            inodes := some 100, inodesUsed := some 20 },
               name := "volume", pvcRef := some demoRef }]

def c3Doc : Summary :=
  onePodDoc [claimVol refSlashA (fsAll 1 2 3 4 5 6),
    claimVol refSlashB (fsAll 7 8 9 10 11 12)]

def c4Doc : Summary :=
  onePodDoc [claimVol refSlashA (fsAll 21 22 23 24 25 26),
    claimVol refSlashB (fsAll 31 32 33 34 35 36)]

def c4WitnessDoc : Summary :=
  onePodDoc [claimVol demoRef (fsAll 1000 400 600 100 80 20),
    claimVol c1WitnessRef (fsAll 500 200 300 50 40 10),
    claimVol demoRef (fsAll 1 2 3 4 5 6)]

/-- An unmarshal function that rejects every body. -/
def badParse : List Nat → ParseResult := fun _ => .malformed "invalid character"

/-- Bytes obtained before a body-read failure (a prefix of a summary JSON
document). -/
def partialBytes : List Nat := [123, 34, 112, 111, 100, 115, 34]

/-- An unmarshal function under which the partially read bytes happen to
decode into a one-claim summary. -/
def c8Parse : List Nat → ParseResult := fun b =>
  if b = partialBytes then .ok (oneClaimDoc demoRef 1000 400 600 100 80 20)
  else .malformed "unexpected end of input"

def noClaimVol : VolumeStats :=
  { fsStats := fsAll 1 2 3 4 5 6, name := "scratch", pvcRef := none }

def c6Doc : Summary :=
  onePodDoc [noClaimVol, claimVol demoRef (fsAll 1000 400 600 100 80 20)]

def c9Doc : Summary := oneClaimDoc demoRef 1000 400 600 100 80 20

/-! ## Characterization of the walk as a flat deduplicating loop -/

theorem except_pure_ok (st : WalkState) :
    (pure st : Except (List GaugeRecord) WalkState) = .ok st := rfl

theorem stepVolume_no_ref (st : WalkState) (v : VolumeStats) (hv : v.pvcRef = none) :
    stepVolume st v = .ok st := by
  simp [stepVolume, hv]

theorem stepVolume_seen (st : WalkState) (v : VolumeStats) (r : PVCReference)
    (hv : v.pvcRef = some r) (hm : pvcUniqStr r ∈ st.allPVCs) :
    stepVolume st v = .ok st := by
  simp [stepVolume, hv, hm]

theorem stepVolume_fresh (st : WalkState) (v : VolumeStats) (r : PVCReference)
    (hv : v.pvcRef = some r) (hm : pvcUniqStr r ∉ st.allPVCs)
    (hall : v.fsStats.allPresent = true) :
    stepVolume st v =
      .ok { allPVCs := st.allPVCs ++ [pvcUniqStr r],
            out := st.out ++ sixOf r v.fsStats } := by
  rcases v with ⟨fs, nm, pref⟩
  rcases fs with ⟨av, cap, us, infr, ino, iur⟩
  cases hv
  cases cap <;> cases av <;> cases us <;> cases infr <;> cases ino <;> cases iur <;>
    simp_all [FsStats.allPresent, stepVolume, emitOne, sixOf, addGauge, except_pure_ok,
      Bind.bind, Except.bind, Functor.map, Except.map, List.append_assoc]

theorem foldVolume_eq (vols : List VolumeStats) :
    ∀ st : WalkState, (volEntries vols).all (fun e => e.2.allPresent) = true →
    vols.foldlM stepVolume st =
      .ok { allPVCs := seenAfter st.allPVCs (volEntries vols),
            out := st.out ++ dedupEmit st.allPVCs (volEntries vols) } := by
  induction vols with
  | nil =>
    intro st _
    rcases st with ⟨seen, out⟩
    simp [volEntries, seenAfter, dedupEmit, except_pure_ok]
  | cons v rest ih =>
    intro st hall
    cases hv : v.pvcRef with
    | none =>
      have hent : volEntries (v :: rest) = volEntries rest := by
        simp [volEntries, hv]
      rw [hent] at hall ⊢
      rw [List.foldlM_cons, stepVolume_no_ref st v hv]
      simpa using ih st hall
    | some r =>
      have hent : volEntries (v :: rest) = (r, v.fsStats) :: volEntries rest := by
        simp [volEntries, hv]
      rw [hent] at hall ⊢
      rw [List.all_cons, Bool.and_eq_true] at hall
      by_cases hm : pvcUniqStr r ∈ st.allPVCs
      · rw [List.foldlM_cons, stepVolume_seen st v r hv hm]
        have e1 : seenAfter st.allPVCs ((r, v.fsStats) :: volEntries rest) =
            seenAfter st.allPVCs (volEntries rest) := by
          simp [seenAfter, hm]
        have e2 : dedupEmit st.allPVCs ((r, v.fsStats) :: volEntries rest) =
            dedupEmit st.allPVCs (volEntries rest) := by
          simp [dedupEmit, hm]
        rw [e1, e2]
        simpa using ih st hall.2
      · rw [List.foldlM_cons, stepVolume_fresh st v r hv hm hall.1]
        have e1 : seenAfter st.allPVCs ((r, v.fsStats) :: volEntries rest) =
            seenAfter (st.allPVCs ++ [pvcUniqStr r]) (volEntries rest) := by
          simp [seenAfter, hm]
        have e2 : dedupEmit st.allPVCs ((r, v.fsStats) :: volEntries rest) =
            sixOf r v.fsStats ++ dedupEmit (st.allPVCs ++ [pvcUniqStr r]) (volEntries rest) := by
          simp [dedupEmit, hm]
        rw [e1, e2]
        have := ih { allPVCs := st.allPVCs ++ [pvcUniqStr r],
                     out := st.out ++ sixOf r v.fsStats } hall.2
        simpa [List.append_assoc] using this

theorem stepPod_eq (st : WalkState) (p : PodStats)
    (hall : (podEntries p).all (fun e => e.2.allPresent) = true) :
    stepPod st p =
      .ok { allPVCs := seenAfter st.allPVCs (podEntries p),
            out := st.out ++ dedupEmit st.allPVCs (podEntries p) } := by
  cases hvs : p.volumeStats with
  | none => simp [stepPod, hvs, podEntries, seenAfter, dedupEmit]
  | some vols =>
    have hent : podEntries p = volEntries vols := by simp [podEntries, hvs]
    rw [hent] at hall ⊢
    simpa [stepPod, hvs] using foldVolume_eq vols st hall

theorem seenAfter_append (es₁ es₂ : List (PVCReference × FsStats)) :
    ∀ seen, seenAfter seen (es₁ ++ es₂) = seenAfter (seenAfter seen es₁) es₂ := by
  induction es₁ with
  | nil => intro seen; simp [seenAfter]
  | cons e rest ih =>
    intro seen
    rcases e with ⟨r, fs⟩
    by_cases hm : pvcUniqStr r ∈ seen <;> simp [seenAfter, hm, ih]

theorem dedupEmit_append (es₁ es₂ : List (PVCReference × FsStats)) :
    ∀ seen, dedupEmit seen (es₁ ++ es₂) =
      dedupEmit seen es₁ ++ dedupEmit (seenAfter seen es₁) es₂ := by
  induction es₁ with
  | nil => intro seen; simp [dedupEmit, seenAfter]
  | cons e rest ih =>
    intro seen
    rcases e with ⟨r, fs⟩
    by_cases hm : pvcUniqStr r ∈ seen <;>
      simp [dedupEmit, seenAfter, hm, ih, List.append_assoc]

theorem foldPods_eq (pods : List PodStats) :
    ∀ st : WalkState, ((pods.flatMap podEntries).all (fun e => e.2.allPresent)) = true →
    pods.foldlM stepPod st =
      .ok { allPVCs := seenAfter st.allPVCs (pods.flatMap podEntries),
            out := st.out ++ dedupEmit st.allPVCs (pods.flatMap podEntries) } := by
  induction pods with
  | nil =>
    intro st _
    rcases st with ⟨seen, out⟩
    simp [seenAfter, dedupEmit, except_pure_ok]
  | cons p rest ih =>
    intro st hall
    rw [List.flatMap_cons] at hall ⊢
    rw [List.all_append, Bool.and_eq_true] at hall
    rw [List.foldlM_cons, stepPod_eq st p hall.1]
    rw [seenAfter_append, dedupEmit_append]
    have := ih { allPVCs := seenAfter st.allPVCs (podEntries p),
                 out := st.out ++ dedupEmit st.allPVCs (podEntries p) } hall.2
    simpa [List.append_assoc] using this

/-- The walk of `Collect`, when every claim-referencing volume carries all six
stats, completes without panic and emits exactly the flat key-deduplicated
record sequence of the document entries. -/
theorem translateSummary_allPresent (s : Summary)
    (hall : (claimEntries s).all (fun e => e.2.allPresent) = true) :
    translateSummary s = .records (dedupEmit [] (claimEntries s)) := by
  rcases s with ⟨_ | pods⟩
  · rfl
  · have hent : claimEntries ⟨some pods⟩ = pods.flatMap podEntries := rfl
    rw [hent] at hall ⊢
    have hdef : translateSummary ⟨some pods⟩ =
        match pods.foldlM stepPod { allPVCs := [], out := [] } with
        | .ok st => .records st.out
        | .error out => .panicked out := rfl
    rw [hdef, foldPods_eq pods { allPVCs := [], out := [] } hall]
    simp [seenAfter, dedupEmit]

/-! ## Key-based versus identity-based deduplication -/

theorem keyInj_of_subset {l l' : List PVCReference}
    (hsub : ∀ x ∈ l, x ∈ l') (h : KeyInj l') : KeyInj l :=
  fun r₁ h₁ r₂ h₂ heq => h r₁ (hsub r₁ h₁) r₂ (hsub r₂ h₂) heq

/-- When the dedup key separates the references at hand, key-based
deduplication (the source) and identity-based deduplication (the spec)
produce the same record sequence. -/
theorem dedupEmit_eq_blocks :
    ∀ (entries : List (PVCReference × FsStats)) (seenR : List PVCReference),
    KeyInj (seenR ++ entries.map Prod.fst) →
    dedupEmit (seenR.map pvcUniqStr) entries = blocks (firstOccurrences seenR entries) := by
  intro entries
  induction entries with
  | nil => intro seenR _; rfl
  | cons e rest ih =>
    intro seenR hinj
    rcases e with ⟨r, fs⟩
    have hinj_r : ∀ r' ∈ seenR, pvcUniqStr r' = pvcUniqStr r → r' = r := by
      intro r' h' heq
      exact hinj r' (by simp [h']) r (by simp) heq
    have hsub : ∀ x ∈ seenR ++ rest.map Prod.fst, x ∈ seenR ++ ((r, fs) :: rest).map Prod.fst := by
      intro x hx
      rcases List.mem_append.mp hx with hx | hx
      · exact List.mem_append.mpr (Or.inl hx)
      · exact List.mem_append.mpr (Or.inr (by simp [List.mem_cons]; right; simpa using hx))
    by_cases hm : r ∈ seenR
    · have hc : pvcUniqStr r ∈ seenR.map pvcUniqStr := List.mem_map_of_mem _ hm
      have e1 : dedupEmit (seenR.map pvcUniqStr) ((r, fs) :: rest) =
          dedupEmit (seenR.map pvcUniqStr) rest := by simp [dedupEmit, hc]
      have e2 : firstOccurrences seenR ((r, fs) :: rest) = firstOccurrences seenR rest := by
        simp [firstOccurrences, hm]
      rw [e1, e2]
      exact ih seenR (keyInj_of_subset hsub hinj)
    · have hc : pvcUniqStr r ∉ seenR.map pvcUniqStr := by
        intro h
        obtain ⟨r', hr', heq⟩ := List.mem_map.mp h
        exact hm ((hinj_r r' hr' heq) ▸ hr')
      have e1 : dedupEmit (seenR.map pvcUniqStr) ((r, fs) :: rest) =
          sixOf r fs ++ dedupEmit (seenR.map pvcUniqStr ++ [pvcUniqStr r]) rest := by
        simp [dedupEmit, hc]
      have e2 : firstOccurrences seenR ((r, fs) :: rest) =
          (r, fs) :: firstOccurrences (seenR ++ [r]) rest := by
        simp [firstOccurrences, hm]
      have hsub2 : ∀ x ∈ (seenR ++ [r]) ++ rest.map Prod.fst,
          x ∈ seenR ++ ((r, fs) :: rest).map Prod.fst := by
        intro x hx
        rcases List.mem_append.mp hx with hx | hx
        · rcases List.mem_append.mp hx with hx | hx
          · exact List.mem_append.mpr (Or.inl hx)
          · simp at hx
            exact List.mem_append.mpr (Or.inr (by simp [hx]))
        · exact List.mem_append.mpr (Or.inr (by simp; right; simpa using hx))
      have hmap : seenR.map pvcUniqStr ++ [pvcUniqStr r] = (seenR ++ [r]).map pvcUniqStr := by
        simp
      rw [e1, e2, hmap, ih (seenR ++ [r]) (keyInj_of_subset hsub2 hinj)]
      rfl

/-- Label values determine the claim identity: a `PVCReference` is exactly
its namespace and name. -/
theorem labelValues_inj (r id : PVCReference) :
    ([r.ns, r.name] = [id.ns, id.name]) ↔ r = id := by
  rcases r with ⟨n₁, s₁⟩
  rcases id with ⟨n₂, s₂⟩
  simp [PVCReference.mk.injEq, and_comm]

theorem filter_sixOf (r id : PVCReference) (fs : FsStats) :
    (sixOf r fs).filter (fun g => decide (g.labelValues = [id.ns, id.name])) =
      if r = id then sixOf r fs else [] := by
  by_cases h : r = id
  · subst h
    simp [sixOf, addGauge]
  · have hne : ¬([r.ns, r.name] = [id.ns, id.name]) := fun hc => h ((labelValues_inj r id).mp hc)
    simp [sixOf, addGauge, hne, h]

theorem filter_blocks (id : PVCReference) :
    ∀ l : List (PVCReference × FsStats),
    (blocks l).filter (fun g => decide (g.labelValues = [id.ns, id.name])) =
      blocks (l.filter (fun e => decide (e.1 = id))) := by
  intro l
  induction l with
  | nil => rfl
  | cons e rest ih =>
    rcases e with ⟨r, fs⟩
    rw [blocks, List.filter_append, filter_sixOf, ih]
    by_cases h : r = id <;> simp [h, blocks]

/-- Identity-based first-occurrence retention keeps, for each identity, the
stats of exactly its first entry. -/
theorem firstOccurrences_filter (id : PVCReference) :
    ∀ (entries : List (PVCReference × FsStats)) (seenR : List PVCReference),
    (firstOccurrences seenR entries).filter (fun e => decide (e.1 = id)) =
      if id ∈ seenR then [] else (entries.filter (fun e => decide (e.1 = id))).take 1 := by
  intro entries
  induction entries with
  | nil =>
    intro seenR
    by_cases hm : id ∈ seenR <;> simp [firstOccurrences, hm]
  | cons e rest ih =>
    intro seenR
    rcases e with ⟨r, fs⟩
    by_cases hm : r ∈ seenR
    · have e2 : firstOccurrences seenR ((r, fs) :: rest) = firstOccurrences seenR rest := by
        simp [firstOccurrences, hm]
      rw [e2, ih]
      by_cases hid : r = id
      · subst hid
        simp [hm]
      · simp [hid]
    · have e2 : firstOccurrences seenR ((r, fs) :: rest) =
          (r, fs) :: firstOccurrences (seenR ++ [r]) rest := by
        simp [firstOccurrences, hm]
      rw [e2]
      by_cases hid : r = id
      · subst hid
        have : r ∈ seenR ++ [r] := by simp
        simp [List.filter_cons, ih, this, hm]
      · have hmm : (id ∈ seenR ++ [r]) ↔ id ∈ seenR := by
          simp [List.mem_append]
          intro h
          exact absurd h.symm hid
        simp [List.filter_cons, hid, ih, hmm]

/-! ## Exactness of the float64 conversion -/

/-- Integers up to `2 ^ 53` convert to `float64` exactly. -/
theorem roundF64_exact {n : Nat} (h : n ≤ 2 ^ 53) : roundF64 n = n := by
  rcases lt_or_eq_of_le h with hlt | heq
  · rw [roundF64, if_pos hlt]
  · subst heq
    decide

/-! ## Provenance of emitted records -/

theorem mem_sixOf (r : PVCReference) (fs : FsStats) (g : GaugeRecord)
    (h : g ∈ sixOf r fs) : g.desc ∈ Describe ∧ g.labelValues = [r.ns, r.name] := by
  simp [sixOf] at h
  rcases h with rfl | rfl | rfl | rfl | rfl | rfl <;> simp [addGauge, Describe]

/-- Whatever a fresh claim volume streams — the full six records, or the
records before a nil-pointer panic — is a front segment of its six-record
block. -/
theorem stepVolume_front (st : WalkState) (v : VolumeStats) (r : PVCReference)
    (hv : v.pvcRef = some r) (hm : pvcUniqStr r ∉ st.allPVCs) :
    ∃ k, walkOut (stepVolume st v) = st.out ++ (sixOf r v.fsStats).take k := by
  rcases v with ⟨⟨av, cap, us, infr, ino, iur⟩, nm, pr⟩
  cases hv
  rcases cap with _ | c
  · exact ⟨0, by simp [stepVolume, emitOne, hm, walkOut, Bind.bind, Except.bind]⟩
  rcases av with _ | a
  · exact ⟨1, by
      simp [stepVolume, emitOne, hm, walkOut, sixOf, Bind.bind, Except.bind]⟩
  rcases us with _ | u
  · exact ⟨2, by
      simp [stepVolume, emitOne, hm, walkOut, sixOf, Bind.bind, Except.bind,
        List.append_assoc]⟩
  rcases ino with _ | i
  · exact ⟨3, by
      simp [stepVolume, emitOne, hm, walkOut, sixOf, Bind.bind, Except.bind,
        List.append_assoc]⟩
  rcases infr with _ | f
  · exact ⟨4, by
      simp [stepVolume, emitOne, hm, walkOut, sixOf, Bind.bind, Except.bind,
        List.append_assoc]⟩
  rcases iur with _ | k
  · exact ⟨5, by
      simp [stepVolume, emitOne, hm, walkOut, sixOf, Bind.bind, Except.bind,
        List.append_assoc]⟩
  · exact ⟨6, by
      simp [stepVolume, emitOne, hm, walkOut, sixOf, Bind.bind, Except.bind,
        except_pure_ok, List.append_assoc]⟩

theorem stepVolume_out (st : WalkState) (v : VolumeStats) (g : GaugeRecord)
    (hg : g ∈ walkOut (stepVolume st v)) :
    g ∈ st.out ∨
      (g.desc ∈ Describe ∧ ∃ r, v.pvcRef = some r ∧ g.labelValues = [r.ns, r.name]) := by
  rcases hv : v.pvcRef with _ | r
  · rw [stepVolume_no_ref st v hv] at hg
    exact Or.inl hg
  · by_cases hm : pvcUniqStr r ∈ st.allPVCs
    · rw [stepVolume_seen st v r hv hm] at hg
      exact Or.inl hg
    · obtain ⟨k, hk⟩ := stepVolume_front st v r hv hm
      rw [hk] at hg
      rcases List.mem_append.mp hg with h | h
      · exact Or.inl h
      · obtain ⟨hd, hl⟩ := mem_sixOf r v.fsStats g (List.take_subset _ _ h)
        exact Or.inr ⟨hd, r, rfl, hl⟩

theorem foldVolume_out (vols : List VolumeStats) :
    ∀ st g, g ∈ walkOut (vols.foldlM stepVolume st) →
      g ∈ st.out ∨
        (g.desc ∈ Describe ∧
          ∃ v ∈ vols, ∃ r, v.pvcRef = some r ∧ g.labelValues = [r.ns, r.name]) := by
  induction vols with
  | nil =>
    intro st g hg
    exact Or.inl hg
  | cons v rest ih =>
    intro st g hg
    rw [List.foldlM_cons] at hg
    cases hstep : stepVolume st v with
    | error o =>
      rw [hstep] at hg
      have hgo : g ∈ walkOut (stepVolume st v) := by rw [hstep]; exact hg
      rcases stepVolume_out st v g hgo with h | ⟨hd, r, hr, hl⟩
      · exact Or.inl h
      · exact Or.inr ⟨hd, v, List.mem_cons_self v rest, r, hr, hl⟩
    | ok st' =>
      rw [hstep] at hg
      rcases ih st' g hg with h | ⟨hd, v', hv', r, hr, hl⟩
      · have hgo : g ∈ walkOut (stepVolume st v) := by rw [hstep]; exact h
        rcases stepVolume_out st v g hgo with h2 | ⟨hd, r, hr, hl⟩
        · exact Or.inl h2
        · exact Or.inr ⟨hd, v, List.mem_cons_self v rest, r, hr, hl⟩
      · exact Or.inr ⟨hd, v', List.mem_cons_of_mem v hv', r, hr, hl⟩

theorem stepPod_out (st : WalkState) (p : PodStats) (g : GaugeRecord)
    (hg : g ∈ walkOut (stepPod st p)) :
    g ∈ st.out ∨
      (g.desc ∈ Describe ∧ ∃ e ∈ podEntries p, g.labelValues = [e.1.ns, e.1.name]) := by
  cases hvs : p.volumeStats with
  | none =>
    rw [stepPod, hvs] at hg
    exact Or.inl hg
  | some vols =>
    rw [stepPod, hvs] at hg
    rcases foldVolume_out vols st g hg with h | ⟨hd, v, hv, r, hr, hl⟩
    · exact Or.inl h
    · refine Or.inr ⟨hd, (r, v.fsStats), ?_, hl⟩
      have hpe : podEntries p = volEntries vols := by simp [podEntries, hvs]
      rw [hpe, volEntries]
      exact List.mem_filterMap.mpr ⟨v, hv, by rw [hr]; rfl⟩

theorem foldPods_out (pods : List PodStats) :
    ∀ st g, g ∈ walkOut (pods.foldlM stepPod st) →
      g ∈ st.out ∨
        (g.desc ∈ Describe ∧
          ∃ e ∈ pods.flatMap podEntries, g.labelValues = [e.1.ns, e.1.name]) := by
  induction pods with
  | nil =>
    intro st g hg
    exact Or.inl hg
  | cons p rest ih =>
    intro st g hg
    rw [List.foldlM_cons] at hg
    cases hstep : stepPod st p with
    | error o =>
      rw [hstep] at hg
      have hgo : g ∈ walkOut (stepPod st p) := by rw [hstep]; exact hg
      rcases stepPod_out st p g hgo with h | ⟨hd, e, he, hl⟩
      · exact Or.inl h
      · exact Or.inr ⟨hd, e, by simp [List.mem_flatMap] at he ⊢; exact Or.inl he, hl⟩
    | ok st' =>
      rw [hstep] at hg
      rcases ih st' g hg with h | ⟨hd, e, he, hl⟩
      · have hgo : g ∈ walkOut (stepPod st p) := by rw [hstep]; exact h
        rcases stepPod_out st p g hgo with h2 | ⟨hd, e, he, hl⟩
        · exact Or.inl h2
        · exact Or.inr ⟨hd, e, by simp [List.mem_flatMap] at he ⊢; exact Or.inl he, hl⟩
      · refine Or.inr ⟨hd, e, ?_, hl⟩
        rw [List.flatMap_cons]
        exact List.mem_append.mpr (Or.inr he)

/-- Every record the walk ever streams — also on a cycle that ends in a
panic — carries one of the six described descriptors and the label values of
some claim reference occurring in the document. -/
theorem translate_records_provenance (s : Summary) (g : GaugeRecord)
    (hg : g ∈ recordsOf (translateSummary s)) :
    g.desc ∈ Describe ∧ ∃ e ∈ claimEntries s, g.labelValues = [e.1.ns, e.1.name] := by
  rcases s with ⟨_ | pods⟩
  · simp [translateSummary, recordsOf] at hg
  · have hent : claimEntries ⟨some pods⟩ = pods.flatMap podEntries := rfl
    rw [hent]
    have hdef : translateSummary ⟨some pods⟩ =
        match pods.foldlM stepPod { allPVCs := [], out := [] } with
        | .ok st => .records st.out
        | .error out => .panicked out := rfl
    rw [hdef] at hg
    cases hfold : pods.foldlM stepPod { allPVCs := [], out := [] } with
    | error o =>
      rw [hfold] at hg
      have hgo : g ∈ walkOut (pods.foldlM stepPod { allPVCs := [], out := [] }) := by
        rw [hfold]; exact hg
      rcases foldPods_out pods { allPVCs := [], out := [] } g hgo with h | ⟨hd, e, he, hl⟩
      · simp at h
      · exact ⟨hd, e, he, hl⟩
    | ok st =>
      rw [hfold] at hg
      have hgo : g ∈ walkOut (pods.foldlM stepPod { allPVCs := [], out := [] }) := by
        rw [hfold]; exact hg
      rcases foldPods_out pods { allPVCs := [], out := [] } g hgo with h | ⟨hd, e, he, hl⟩
      · simp at h
      · exact ⟨hd, e, he, hl⟩

/-! ## Volumes without a claim reference change nothing -/

theorem foldVolume_filter (vols : List VolumeStats) :
    ∀ st : WalkState,
      (vols.filter (fun v => v.pvcRef.isSome)).foldlM stepVolume st =
        vols.foldlM stepVolume st := by
  induction vols with
  | nil => intro st; rfl
  | cons v rest ih =>
    intro st
    cases hv : v.pvcRef with
    | none =>
      have hfil : (v :: rest).filter (fun v => v.pvcRef.isSome) =
          rest.filter (fun v => v.pvcRef.isSome) := by
        simp [List.filter_cons, hv]
      rw [hfil, List.foldlM_cons, stepVolume_no_ref st v hv, ih st]
      rfl
    | some r =>
      have hfil : (v :: rest).filter (fun v => v.pvcRef.isSome) =
          v :: rest.filter (fun v => v.pvcRef.isSome) := by
        simp [List.filter_cons, hv]
      rw [hfil, List.foldlM_cons, List.foldlM_cons]
      cases hstep : stepVolume st v with
      | error o => rfl
      | ok st' => exact ih st'

theorem stepPod_strip (st : WalkState) (p : PodStats) :
    stepPod st (stripPod p) = stepPod st p := by
  cases hvs : p.volumeStats with
  | none => simp [stepPod, stripPod, hvs]
  | some vols => simp [stepPod, stripPod, hvs, foldVolume_filter]

theorem foldPods_strip (pods : List PodStats) :
    ∀ st : WalkState,
      (pods.map stripPod).foldlM stepPod st = pods.foldlM stepPod st := by
  induction pods with
  | nil => intro st; rfl
  | cons p rest ih =>
    intro st
    rw [List.map_cons, List.foldlM_cons, List.foldlM_cons, stepPod_strip st p]
    cases hstep : stepPod st p with
    | error o => rfl
    | ok st' => exact ih st'

/-- Removing every volume that lacks a claim reference leaves the outcome of
the walk unchanged, whatever stats those volumes carried. -/
theorem translate_strip (s : Summary) :
    translateSummary (stripNoClaim s) = translateSummary s := by
  rcases s with ⟨_ | pods⟩
  · rfl
  · have hdef : stripNoClaim ⟨some pods⟩ = ⟨some (pods.map stripPod)⟩ := rfl
    rw [hdef]
    have h1 : translateSummary ⟨some (pods.map stripPod)⟩ =
        match (pods.map stripPod).foldlM stepPod { allPVCs := [], out := [] } with
        | .ok st => .records st.out
        | .error out => .panicked out := rfl
    have h2 : translateSummary ⟨some pods⟩ =
        match pods.foldlM stepPod { allPVCs := [], out := [] } with
        | .ok st => .records st.out
        | .error out => .panicked out := rfl
    rw [h1, h2, foldPods_strip pods { allPVCs := [], out := [] }]

/-! ## The claims -/

/-- Claim C1, counterexample: the identity `refSlashB = (namespace "a/b",
name "c")` is referenced by two claim-referencing volumes of `c1Doc`, yet the
translation emits zero records carrying its label values — an earlier volume
with the distinct identity `(namespace "a", name "b/c")` already inserted the
shared dedup key `"a/b/c"`.  This refutes the claim that such a document
always yields exactly one six-record set for the identity. -/
theorem c1_counterexample :
    ((claimEntries c1Doc).filter (fun e => decide (e.1 = refSlashB))).length = 2 ∧
    (recordsOf (translateSummary c1Doc)).filter
        (fun g => decide (g.labelValues = [refSlashB.ns, refSlashB.name])) = [] := by
  decide

/-- Claim C1, amended: when every claim-referencing volume carries all six
stats and no two distinct claim identities of the document collide on the
dedup key `namespace ++ "/" ++ name`, an identity referenced by two or more
volumes receives exactly one six-record set, taken from its first-encountered
volume; every later volume referencing it contributes nothing. -/
theorem c1_dedup_first_write_wins (s : Summary) (id : PVCReference)
    (fs₁ : FsStats) (restOcc : List (PVCReference × FsStats))
    (hall : (claimEntries s).all (fun e => e.2.allPresent) = true)
    (hinj : KeyInj ((claimEntries s).map Prod.fst))
    (hocc : (claimEntries s).filter (fun e => decide (e.1 = id)) = (id, fs₁) :: restOcc)
    (_htwo : restOcc ≠ []) :
    (recordsOf (translateSummary s)).filter
        (fun g => decide (g.labelValues = [id.ns, id.name])) = sixOf id fs₁ := by
  rw [translateSummary_allPresent s hall]
  have hb : dedupEmit [] (claimEntries s) = blocks (firstOccurrences [] (claimEntries s)) :=
    dedupEmit_eq_blocks (claimEntries s) [] hinj
  show (dedupEmit [] (claimEntries s)).filter
      (fun g => decide (g.labelValues = [id.ns, id.name])) = sixOf id fs₁
  rw [hb, filter_blocks, firstOccurrences_filter]
  simp [hocc, blocks]

theorem c1_witness :
    (recordsOf (translateSummary c1WitnessDoc)).filter
        (fun g => decide (g.labelValues = [demoRef.ns, demoRef.name])) =
      sixOf demoRef (fsAll 1000 400 600 100 80 20) :=
  c1_dedup_first_write_wins c1WitnessDoc demoRef (fsAll 1000 400 600 100 80 20)
    [(demoRef, fsAll 1 2 3 4 5 6)] (by decide) (by decide) (by decide) (by decide)

/-- Claim C2 (the code contradicts it): on a claim-referencing volume with an
absent required stat, the walk dereferences a nil pointer: the cycle ends in a
panic — `c2Doc` (absent capacity) panics before emitting anything, and
`c2DocPartial` (absent available bytes) panics after having already streamed
the capacity record — instead of surfacing a data-integrity error through the
per-cycle error-handling policy. -/
theorem c2_missing_stat_panics :
    translateSummary c2Doc = .panicked [] ∧
    translateSummary c2DocPartial =
      .panicked [addGauge volumeStatsCapacityBytes demoRef 1000] := by
  decide

/-- Claim C3, counterexample: the distinct identities `(namespace "a", name
"b/c")` and `(namespace "a/b", name "c")` — differing in both fields — are
merged by the deduplication: the translation of `c3Doc` emits only the six
records of the first reference and drops the second entirely, refuting
"no pair of references with differing namespace or name is ever merged". -/
theorem c3_counterexample :
    refSlashA ≠ refSlashB ∧
    translateSummary c3Doc = .records (sixOf refSlashA (fsAll 1 2 3 4 5 6)) := by
  decide

/-- Claim C3, amended: within one translation call two references are
deduplicated as the same claim iff their concatenated keys `namespace ++ "/"
++ name` coincide.  Equal (namespace, name) pairs always coincide, but
distinct pairs can coincide too when a field contains a slash. -/
theorem c3_dedup_key_equality (r₁ r₂ : PVCReference)
    (c₁ a₁ u₁ n₁ f₁ k₁ c₂ a₂ u₂ n₂ f₂ k₂ : Nat) :
    translateSummary
        (twoVolDoc r₁ (fsAll c₁ a₁ u₁ n₁ f₁ k₁) r₂ (fsAll c₂ a₂ u₂ n₂ f₂ k₂)) =
      .records (if pvcUniqStr r₂ = pvcUniqStr r₁
        then sixOf r₁ (fsAll c₁ a₁ u₁ n₁ f₁ k₁)
        else sixOf r₁ (fsAll c₁ a₁ u₁ n₁ f₁ k₁) ++ sixOf r₂ (fsAll c₂ a₂ u₂ n₂ f₂ k₂)) ∧
    (r₁ = r₂ → pvcUniqStr r₁ = pvcUniqStr r₂) := by
  constructor
  · have hall : (claimEntries
        (twoVolDoc r₁ (fsAll c₁ a₁ u₁ n₁ f₁ k₁) r₂ (fsAll c₂ a₂ u₂ n₂ f₂ k₂))).all
          (fun e => e.2.allPresent) = true := by
      simp [twoVolDoc, onePodDoc, claimVol, claimEntries, podEntries, volEntries,
        fsAll, FsStats.allPresent]
    rw [translateSummary_allPresent _ hall]
    have hent : claimEntries
        (twoVolDoc r₁ (fsAll c₁ a₁ u₁ n₁ f₁ k₁) r₂ (fsAll c₂ a₂ u₂ n₂ f₂ k₂)) =
          [(r₁, fsAll c₁ a₁ u₁ n₁ f₁ k₁), (r₂, fsAll c₂ a₂ u₂ n₂ f₂ k₂)] := by
      simp [twoVolDoc, onePodDoc, claimVol, claimEntries, podEntries, volEntries]
    rw [hent]
    by_cases h : pvcUniqStr r₂ = pvcUniqStr r₁ <;> simp [dedupEmit, h]
  · intro h
    rw [h]

/-- Claim C4, counterexample: for `c4Doc` the emitted sequence is not the
concatenation, in first-encounter order, of one six-record block per claim
identity: the block of the second identity is missing because its dedup key
collides with that of the first identity. -/
theorem c4_counterexample :
    recordsOf (translateSummary c4Doc) ≠
      blocks (firstOccurrences [] (claimEntries c4Doc)) := by
  decide

/-- Claim C4, amended: when every claim-referencing volume carries all six
stats and distinct claim identities never collide on the dedup key, the
emitted sequence is exactly one six-record block (capacity, available, used,
inodes, inodes free, inodes used) per claim identity, blocks ordered by first
encounter in the document walk, repeats contributing nothing. -/
theorem c4_order_preservation (s : Summary)
    (hall : (claimEntries s).all (fun e => e.2.allPresent) = true)
    (hinj : KeyInj ((claimEntries s).map Prod.fst)) :
    translateSummary s = .records (blocks (firstOccurrences [] (claimEntries s))) := by
  rw [translateSummary_allPresent s hall]
  exact congrArg CollectOutcome.records (dedupEmit_eq_blocks (claimEntries s) [] hinj)

theorem c4_witness :
    translateSummary c4WitnessDoc =
      .records (blocks (firstOccurrences [] (claimEntries c4WitnessDoc))) :=
  c4_order_preservation c4WitnessDoc (by decide) (by decide)

/-- Claim C5: when the body does not deserialize into a summary — the
unmarshal result is malformed — the cycle reports a parse failure and emits
zero records. -/
theorem c5_malformed_input (unmarshal : List Nat → ParseResult)
    (resp : FetchResponse) (cause : String)
    (h : unmarshal resp.body = .malformed cause) :
    Collect unmarshal (.success resp) = .parseFailed cause ∧
    recordsOf (Collect unmarshal (.success resp)) = [] := by
  have hc : Collect unmarshal (.success resp) =
      match unmarshal resp.body with
      | .malformed cause => .parseFailed cause
      | .ok s => translateSummary s := rfl
  rw [hc, h]
  exact ⟨rfl, rfl⟩

theorem c5_witness :
    Collect badParse (.success { body := [60], readErr := none }) =
      .parseFailed "invalid character" ∧
    recordsOf (Collect badParse (.success { body := [60], readErr := none })) = [] :=
  c5_malformed_input badParse { body := [60], readErr := none } "invalid character" rfl

/-- Claim C6: a volume without a claim reference contributes zero gauge
records whatever stats it carries — removing all such volumes leaves the
translation outcome unchanged, and the walk step on such a volume leaves the
state untouched. -/
theorem c6_no_claim_filtered (s : Summary) :
    translateSummary (stripNoClaim s) = translateSummary s ∧
    ∀ (st : WalkState) (v : VolumeStats), v.pvcRef = none → stepVolume st v = .ok st :=
  ⟨translate_strip s, fun st v hv => stepVolume_no_ref st v hv⟩

theorem c6_witness :
    translateSummary (stripNoClaim c6Doc) = translateSummary c6Doc ∧
    stepVolume { allPVCs := [], out := [] } noClaimVol =
      .ok { allPVCs := [], out := [] } :=
  ⟨(c6_no_claim_filtered c6Doc).1,
   (c6_no_claim_filtered c6Doc).2 { allPVCs := [], out := [] } noClaimVol rfl⟩

/-- Claim C7: a summary whose pod list is absent (nil) or empty translates to
an empty record sequence, not an error. -/
theorem c7_empty_document (s : Summary) (h : s.pods = none ∨ s.pods = some []) :
    translateSummary s = .records [] := by
  rcases s with ⟨p⟩
  rcases h with h | h
  · simp only at h
    subst h
    rfl
  · simp only at h
    subst h
    rfl

theorem c7_witness : translateSummary { pods := none } = .records [] :=
  c7_empty_document { pods := none } (Or.inl rfl)

/-- Claim C8, counterexample: a cycle in which the body read fails with
"connection reset" — but the bytes read so far happen to decode — does not
return a body-read failure with zero records: `Collect` discards the read
error and emits the six records of the decoded summary. -/
theorem c8_counterexample :
    Collect c8Parse (.success { body := partialBytes, readErr := some "connection reset" }) =
      .records (sixOf demoRef (fsAll 1000 400 600 100 80 20)) ∧
    recordsOf (Collect c8Parse
      (.success { body := partialBytes, readErr := some "connection reset" })) ≠ [] := by
  decide

/-- Claim C8, amended: the error returned while draining the response body is
discarded; the cycle behaves exactly as if the read had succeeded with the
bytes obtained, so records may still be emitted from a partially read body. -/
theorem c8_read_error_ignored (unmarshal : List Nat → ParseResult)
    (body : List Nat) (e : String) :
    Collect unmarshal (.success { body := body, readErr := some e }) =
      Collect unmarshal (.success { body := body, readErr := none }) := rfl

/-- Claim C9: `Describe` lists exactly the six descriptors with the six fixed
metric names, each carrying label names `namespace` and
`persistentvolumeclaim`; and every record the walk ever streams carries one
of these six descriptors with label values (claim namespace, claim name) of a
claim reference occurring in the document. -/
theorem c9_describe_and_labels :
    Describe.map MetricDesc.fqName =
      ["kubelet_volume_stats_capacity_bytes", "kubelet_volume_stats_available_bytes",
       "kubelet_volume_stats_used_bytes", "kubelet_volume_stats_inodes",
       "kubelet_volume_stats_inodes_free", "kubelet_volume_stats_inodes_used"] ∧
    (∀ d ∈ Describe, d.variableLabels = ["namespace", "persistentvolumeclaim"]) ∧
    (∀ (s : Summary) (g : GaugeRecord), g ∈ recordsOf (translateSummary s) →
      g.desc ∈ Describe ∧ ∃ e ∈ claimEntries s, g.labelValues = [e.1.ns, e.1.name]) := by
  refine ⟨rfl, ?_, ?_⟩
  · intro d hd
    simp [Describe] at hd
    rcases hd with rfl | rfl | rfl | rfl | rfl | rfl <;> rfl
  · intro s g hg
    exact translate_records_provenance s g hg

theorem c9_witness :
    volumeStatsCapacityBytes.variableLabels = ["namespace", "persistentvolumeclaim"] ∧
    ((addGauge volumeStatsCapacityBytes demoRef 1000).desc ∈ Describe ∧
      ∃ e ∈ claimEntries c9Doc,
        (addGauge volumeStatsCapacityBytes demoRef 1000).labelValues = [e.1.ns, e.1.name]) :=
  ⟨c9_describe_and_labels.2.1 volumeStatsCapacityBytes (by decide),
   c9_describe_and_labels.2.2 c9Doc (addGauge volumeStatsCapacityBytes demoRef 1000)
     (by decide)⟩

/-- Claim C10: on a claim volume with all six stats present the emitted
values are the `float64` conversions of the `uint64` fields — exactly the
integers themselves whenever they are at most `2 ^ 53` — while a field value
above `2 ^ 53` can emit a different value: the conversion of `2 ^ 53 + 1`
is not `2 ^ 53 + 1`. -/
theorem c10_float64_conversion (r : PVCReference) (cap av us ino infr iur : Nat)
    (h₁ : cap ≤ 2 ^ 53) (h₂ : av ≤ 2 ^ 53) (h₃ : us ≤ 2 ^ 53)
    (h₄ : ino ≤ 2 ^ 53) (h₅ : infr ≤ 2 ^ 53) (h₆ : iur ≤ 2 ^ 53) :
    translateSummary (oneClaimDoc r cap av us ino infr iur) =
      .records
        [{ desc := volumeStatsCapacityBytes, value := cap, labelValues := [r.ns, r.name] },
         { desc := volumeStatsAvailableBytes, value := av, labelValues := [r.ns, r.name] },
         { desc := volumeStatsUsedBytes, value := us, labelValues := [r.ns, r.name] },
         { desc := volumeStatsInodes, value := ino, labelValues := [r.ns, r.name] },
         { desc := volumeStatsInodesFree, value := infr, labelValues := [r.ns, r.name] },
         { desc := volumeStatsInodesUsed, value := iur, labelValues := [r.ns, r.name] }] ∧
    (addGauge volumeStatsCapacityBytes r (2 ^ 53 + 1)).value ≠ 2 ^ 53 + 1 := by
  constructor
  · have hall : (claimEntries (oneClaimDoc r cap av us ino infr iur)).all
        (fun e => e.2.allPresent) = true := by
      simp [oneClaimDoc, onePodDoc, claimVol, claimEntries, podEntries, volEntries,
        fsAll, FsStats.allPresent]
    rw [translateSummary_allPresent _ hall]
    have hent : claimEntries (oneClaimDoc r cap av us ino infr iur) =
        [(r, fsAll cap av us ino infr iur)] := by
      simp [oneClaimDoc, onePodDoc, claimVol, claimEntries, podEntries, volEntries]
    rw [hent]
    simp [dedupEmit, sixOf, addGauge, fsAll, roundF64_exact h₁, roundF64_exact h₂,
      roundF64_exact h₃, roundF64_exact h₄, roundF64_exact h₅, roundF64_exact h₆]
  · show roundF64 (2 ^ 53 + 1) ≠ 2 ^ 53 + 1
    decide

theorem c10_witness :
    translateSummary (oneClaimDoc demoRef 1000 400 600 100 80 20) =
      .records
        [{ desc := volumeStatsCapacityBytes, value := 1000,
           labelValues := [demoRef.ns, demoRef.name] },
         { desc := volumeStatsAvailableBytes, value := 400,
           labelValues := [demoRef.ns, demoRef.name] },
         { desc := volumeStatsUsedBytes, value := 600,
           labelValues := [demoRef.ns, demoRef.name] },
         { desc := volumeStatsInodes, value := 100,
           labelValues := [demoRef.ns, demoRef.name] },
         { desc := volumeStatsInodesFree, value := 80,
           labelValues := [demoRef.ns, demoRef.name] },
         { desc := volumeStatsInodesUsed, value := 20,
           labelValues := [demoRef.ns, demoRef.name] }] ∧
    (addGauge volumeStatsCapacityBytes demoRef (2 ^ 53 + 1)).value ≠ 2 ^ 53 + 1 :=
  c10_float64_conversion demoRef 1000 400 600 100 80 20 (by decide) (by decide)
    (by decide) (by decide) (by decide) (by decide)

end KubeletExporter
